import Mathlib

/-!
Verification of the streaming statistics and filtering core of a three-tier
telemetry pipeline (sensors, edge nodes, cloud aggregator) written in Go.

Shallow embedding conventions:
* float64 values are modelled as rationals (ℚ); all arithmetic performed by the
  program on readings is field arithmetic, except the square root inside the
  standard deviation, which is only ever used in comparisons of the shape
  |a| > k * sqrt s.  For k ≥ 0 and s ≥ 0 that comparison is equivalent to
  k < 0 ∨ a^2 > k^2 * s, which is the exact rational form used throughout; the
  embedded definitions therefore carry the squared standard deviation.
* int64 timestamps and time.Duration latencies are modelled as ℤ.
* the initial values +Inf / -Inf of the running min/max are modelled by
  Option ℚ (none = not yet observed); the program compares them only against
  finite readings and publishes them only when at least one reading was seen,
  so no other arithmetic on infinities occurs.
* JSON messages are modelled by an inductive value type, and Go's
  encoding/json unmarshalling discipline (unknown fields ignored, missing
  fields left at their zero value, type mismatches rejected, null accepted
  as a no-op) is reproduced by the decode functions.
-/

namespace Telemetry

/-- SensorReading from cmd/sensor and cmd/edge: sensor_id, value, timestamp. -/
structure SensorReading where
  sensorId : String
  value : ℚ
  timestamp : ℤ
deriving DecidableEq

/-- FilteredReading: a SensorReading plus the forwarding edge node's id. -/
structure FilteredReading where
  sensorId : String
  value : ℚ
  timestamp : ℤ
  edgeId : String
deriving DecidableEq

/-- Alert as published on edge.alerts. -/
structure Alert where
  sensorId : String
  value : ℚ
  timestamp : ℤ
  edgeId : String
  type : String
  message : String
deriving DecidableEq

/-- Go: if v < min then min = v, where min starts at math.Inf(1); none plays
the role of +Inf, against which every finite value compares smaller. -/
def updMin (m : Option ℚ) (v : ℚ) : Option ℚ :=
  match m with
  | none => some v
  | some m0 => if v < m0 then some v else some m0

/-- Go: if v > max then max = v, where max starts at math.Inf(-1). -/
def updMax (m : Option ℚ) (v : ℚ) : Option ℚ :=
  match m with
  | none => some v
  | some m0 => if m0 < v then some v else some m0

/-- JSON values carried on the NATS channels. -/
inductive JVal where
  | num (q : ℚ)
  | str (s : String)
  | bool (b : Bool)
  | null
  | arr (elems : List JVal)
  | obj (fields : List (String × JVal))

/-- Field lookup in a JSON object (messages in this system carry no
duplicate keys). -/
def jlookup (fields : List (String × JVal)) (k : String) : Option JVal :=
  match fields with
  | [] => none
  | (k', v) :: rest => if k' = k then some v else jlookup rest k

/-- Go json.Unmarshal into a string struct field: absent or null leaves the
zero value "", a JSON string is taken, any other JSON type is an error. -/
def decodeStr (fields : List (String × JVal)) (k : String) : Option String :=
  match jlookup fields k with
  | none => some ""
  | some JVal.null => some ""
  | some (JVal.str s) => some s
  | some _ => none

/-- Go json.Unmarshal into a float64 struct field. -/
def decodeNum (fields : List (String × JVal)) (k : String) : Option ℚ :=
  match jlookup fields k with
  | none => some 0
  | some JVal.null => some 0
  | some (JVal.num q) => some q
  | some _ => none

/-- Go json.Unmarshal into an int64 struct field: a fractional JSON number is
an error. -/
def decodeInt (fields : List (String × JVal)) (k : String) : Option ℤ :=
  match jlookup fields k with
  | none => some 0
  | some JVal.null => some 0
  | some (JVal.num q) => if q.den = 1 then some q.num else none
  | some _ => none

/-- Go json.Unmarshal of a message into the SensorReading struct: unknown
fields are ignored, missing fields stay zero, a top-level null is a no-op,
a non-object top level or a field of the wrong type is an error. -/
def decodeSensorReading (j : JVal) : Option SensorReading :=
  match j with
  | JVal.null => some { sensorId := "", value := 0, timestamp := 0 }
  | JVal.obj fields =>
    match decodeStr fields "sensor_id", decodeNum fields "value",
          decodeInt fields "timestamp" with
    | some s, some v, some t => some { sensorId := s, value := v, timestamp := t }
    | _, _, _ => none
  | _ => none

/-- Go json.Unmarshal of a message into the FilteredReading struct. -/
def decodeFilteredReading (j : JVal) : Option FilteredReading :=
  match j with
  | JVal.null => some { sensorId := "", value := 0, timestamp := 0, edgeId := "" }
  | JVal.obj fields =>
    match decodeStr fields "sensor_id", decodeNum fields "value",
          decodeInt fields "timestamp", decodeStr fields "edge_id" with
    | some s, some v, some t, some e =>
      some { sensorId := s, value := v, timestamp := t, edgeId := e }
    | _, _, _, _ => none
  | _ => none

/-! The filtering edge node (cmd/edge, second program variant): z-score noise
rejection against the running mean, static min/max thresholds, periodic
aggregate emission. -/

namespace Edge

/-- EdgeStats of the filtering edge variant: count, sum, min, max are the
running totals since the last aggregate emission; windowValues is the bounded
recent-history buffer of size windowSize. -/
structure EdgeStats where
  count : ℕ
  sum : ℚ
  min : Option ℚ
  max : Option ℚ
  windowValues : List ℚ
  windowSize : ℕ
deriving DecidableEq

/-- Initial EdgeStats as built in main: empty window, count 0, min +Inf,
max -Inf. -/
def init (windowSize : ℕ) : EdgeStats :=
  { count := 0, sum := 0, min := none, max := none,
    windowValues := [], windowSize := windowSize }

/-- Statistics update block of processMessage: count++, sum += v, min/max
update, append v to windowValues and drop the oldest entry once the length
exceeds windowSize. -/
def ingest (v : ℚ) (s : EdgeStats) : EdgeStats :=
  let w := s.windowValues ++ [v]
  { s with
    count := s.count + 1
    sum := s.sum + v
    min := Telemetry.updMin s.min v
    max := Telemetry.updMax s.max v
    windowValues := if s.windowSize < w.length then w.tail else w }

/-- mean := stats.sum / float64(stats.count), the running mean over all
readings since the last aggregate reset (not the mean of the window).  Only
evaluated after ingest, so count ≥ 1 at every use site. -/
def runMean (s : EdgeStats) : ℚ := s.sum / (s.count : ℚ)

/-- Square of the stdDev local of processMessage: the mean squared deviation
of the window values about the running mean when the window holds more than
one sample, and 0 otherwise.  The source takes math.Sqrt of this quantity;
the square is kept because every use compares it under a square (see
rejectNoise). -/
def stdDevSq (s : EdgeStats) : ℚ :=
  if 1 < s.windowValues.length then
    ((s.windowValues.map fun x => (x - runMean s) ^ 2).sum) /
      (s.windowValues.length : ℚ)
  else 0

/-- Noise rejection test of processMessage, evaluated on the post-ingest
stats: stdDev > 0 && |v - mean| > k * stdDev.  Over the reals, for
s = stdDev^2 > 0 the second conjunct |v - mean| > k * sqrt s holds iff
k < 0 or (v - mean)^2 > k^2 * s; that exact rational form is used here. -/
def rejectNoise (k v : ℚ) (s : EdgeStats) : Bool :=
  decide (0 < stdDevSq s) &&
    (decide (k < 0) || decide (k ^ 2 * stdDevSq s < (v - runMean s) ^ 2))

/-- Messages published by one call of the filtering edge's processMessage. -/
structure Output where
  filtered : Option Telemetry.FilteredReading
  alert : Option Telemetry.Alert
deriving DecidableEq

/-- processMessage of the filtering edge variant: update the statistics,
then drop the reading if the noise test rejects it; otherwise forward it as
a FilteredReading and raise a static min/max threshold alert when the value
is out of bounds. -/
def processMessage (noise tmin tmax : ℚ) (r : Telemetry.SensorReading)
    (s : EdgeStats) (edgeId : String) : Output × EdgeStats :=
  let s' := ingest r.value s
  if rejectNoise noise r.value s' then
    ({ filtered := none, alert := none }, s')
  else
    let filtered : Telemetry.FilteredReading :=
      { sensorId := r.sensorId, value := r.value, timestamp := r.timestamp,
        edgeId := edgeId }
    let alert : Option Telemetry.Alert :=
      if r.value < tmin ∨ tmax < r.value then
        some { sensorId := r.sensorId, value := r.value,
               timestamp := r.timestamp, edgeId := edgeId,
               type := "threshold",
               message := if r.value < tmin then "Value below minimum threshold"
                          else "Value above maximum threshold" }
      else none
    ({ filtered := some filtered, alert := alert }, s')

/-- Aggregate summary published on edge.filtered by publishAggregate. -/
structure AggregateSummary where
  edgeId : String
  count : ℕ
  mean : ℚ
  min : Option ℚ
  max : Option ℚ
  timestamp : ℤ
deriving DecidableEq

/-- publishAggregate: emit nothing when count = 0; otherwise publish
{edge_id, count, mean = sum/count, min, max, timestamp = now} and reset the
running totals (count 0, sum 0, min +Inf, max -Inf) and empty the window. -/
def publishAggregate (s : EdgeStats) (edgeId : String) (now : ℤ) :
    Option AggregateSummary × EdgeStats :=
  if s.count = 0 then (none, s)
  else
    let summary : AggregateSummary :=
      { edgeId := edgeId, count := s.count, mean := s.sum / (s.count : ℚ),
        min := s.min, max := s.max, timestamp := now }
    let reset : EdgeStats :=
      { s with count := 0, sum := 0, min := none, max := none,
               windowValues := [] }
    (some summary, reset)

/-- State reached after processing a list of readings in order (the outputs
are discarded; the state transition of processMessage does not depend on the
reject decision, thresholds or ids, only on the value ingested). -/
def ingestList (vs : List ℚ) (s : EdgeStats) : EdgeStats :=
  vs.foldl (fun acc v => ingest v acc) s

end Edge

/-! The HTTP-metrics edge variant (cmd/edge, first program variant): same
statistics update, noise filtering disabled (commented out in the source),
tiered critical/warning alerts. -/

namespace EdgeApi

/-- processMessage of the HTTP-metrics edge variant: update the statistics
(identical block to the filtering variant, so Edge.ingest is reused), always
forward the reading, and raise a tiered alert: critical when value < 0 or
value > 100, else warning when value < 40 or value > 60, else none. -/
def processMessage (r : Telemetry.SensorReading) (s : Edge.EdgeStats)
    (edgeId : String) : Edge.Output × Edge.EdgeStats :=
  let s' := Edge.ingest r.value s
  let filtered : Telemetry.FilteredReading :=
    { sensorId := r.sensorId, value := r.value, timestamp := r.timestamp,
      edgeId := edgeId }
  let alert : Option Telemetry.Alert :=
    if r.value < 0 ∨ 100 < r.value then
      some { sensorId := r.sensorId, value := r.value,
             timestamp := r.timestamp, edgeId := edgeId,
             type := "critical", message := "Critical value detected (Spike)" }
    else if r.value < 40 ∨ 60 < r.value then
      some { sensorId := r.sensorId, value := r.value,
             timestamp := r.timestamp, edgeId := edgeId,
             type := "warning", message := "Process drift detected (Warning)" }
    else none
  ({ filtered := some filtered, alert := alert }, s')

/-- Handler of one raw message from sensors.readings: a reading whose JSON
fails to unmarshal is skipped (state unchanged, nothing published). -/
def handleMessage (j : Telemetry.JVal) (s : Edge.EdgeStats) (edgeId : String) :
    Edge.Output × Edge.EdgeStats :=
  match Telemetry.decodeSensorReading j with
  | none => ({ filtered := none, alert := none }, s)
  | some r => processMessage r s edgeId

end EdgeApi

/-! The cloud processor (cmd/cloud): global statistics over the fanned-in
edge.filtered channel, exact-on-sort latency percentiles, periodic report. -/

namespace Cloud

/-- GlobalStats of the cloud processor.  readings is the Go slice
stats.readings together with its capacity: the eviction guard of
processFilteredReading tests len >= cap, and cap changes when append
reallocates, so the capacity is part of the state.  edgeNodes is the
per-edge-id reading counter map. -/
structure GlobalStats where
  readings : List ℚ
  readingsCap : ℕ
  edgeNodes : String → ℤ
  totalReadings : ℕ
  sum : ℚ
  min : Option ℚ
  max : Option ℚ
  latencies : List ℤ

/-- Initial GlobalStats as built in main: readings := make([]float64, 0,
maxReadings), so the buffer starts empty with capacity maxReadings. -/
def init (maxReadings : ℕ) : GlobalStats :=
  { readings := [], readingsCap := maxReadings, edgeNodes := fun _ => 0,
    totalReadings := 0, sum := 0, min := none, max := none, latencies := [] }

/-- Capacity chosen by the Go runtime when append must grow a slice, for
slices below the large-slice threshold (256 elements): the doubled old
capacity, or the needed length when that is larger.  The runtime's final
rounding to an allocation size class is the identity at the element counts
exercised here. -/
def goGrowCap (oldCap needed : ℕ) : ℕ :=
  if 2 * oldCap < needed then needed else 2 * oldCap

/-- Reading-buffer update of processFilteredReading:
if len(readings) >= cap(readings) { readings = readings[1:] };
readings = append(readings, v).  Reslicing with [1:] shrinks the capacity by
one, and append grows the capacity via the runtime rule when the new length
exceeds it. -/
def pushReading (rs : List ℚ) (cap : ℕ) (v : ℚ) : List ℚ × ℕ :=
  let rs' := if cap ≤ rs.length then rs.tail else rs
  let cap' := if cap ≤ rs.length then cap - 1 else cap
  let appended := rs' ++ [v]
  if cap' < appended.length then (appended, goGrowCap cap' appended.length)
  else (appended, cap')

/-- processFilteredReading: update the running totals, push the value into
the readings buffer, count the reading against its edge node, and append the
latency now - reading.Timestamp (seconds, stored as nanoseconds) to a
10000-capped latency buffer. -/
def processFilteredReading (r : Telemetry.FilteredReading) (now : ℤ)
    (s : GlobalStats) : GlobalStats :=
  let latency := (now - r.timestamp) * 1000000000
  let pushed := pushReading s.readings s.readingsCap r.value
  let ls := s.latencies ++ [latency]
  { s with
    totalReadings := s.totalReadings + 1
    sum := s.sum + r.value
    min := Telemetry.updMin s.min r.value
    max := Telemetry.updMax s.max r.value
    readings := pushed.1
    readingsCap := pushed.2
    edgeNodes := fun e => if e = r.edgeId then s.edgeNodes e + 1 else s.edgeNodes e
    latencies := if 10000 < ls.length then ls.tail else ls }

/-- Truncation of a float64 to int as Go's int(x) does (toward zero); the
aggregate counts handled here are non-negative integers, where all integer
division conventions agree. -/
def goInt (q : ℚ) : ℤ := q.num.tdiv (q.den : ℤ)

/-- processAggregate: on a decoded map, when edge_id asserts to a string and
count to a float64, add int(count) to that edge's reading total; otherwise do
nothing. -/
def processAggregate (fields : List (String × Telemetry.JVal))
    (s : GlobalStats) : GlobalStats :=
  match Telemetry.jlookup fields "edge_id" with
  | some (Telemetry.JVal.str e) =>
    match Telemetry.jlookup fields "count" with
    | some (Telemetry.JVal.num q) =>
      { s with edgeNodes := fun x =>
          if x = e then s.edgeNodes x + goInt q else s.edgeNodes x }
    | _ => s
  | _ => s

/-- Subscription handler for edge.filtered: unmarshal as a FilteredReading;
on failure fall back to unmarshalling as a map (which succeeds exactly for a
JSON object) and process it as an aggregate; a message that parses as
neither is skipped.  The input none stands for bytes that are not valid
JSON at all. -/
def handleFiltered (m : Option Telemetry.JVal) (now : ℤ) (s : GlobalStats) :
    GlobalStats :=
  match m with
  | none => s
  | some j =>
    match Telemetry.decodeFilteredReading j with
    | some r => processFilteredReading r now s
    | none =>
      match j with
      | Telemetry.JVal.obj fields => processAggregate fields s
      | _ => s

/-- Inner pass of the exchange sort in calculatePercentile: scanning
positions j = i+1.. with `if sorted[i] > sorted[j] { swap }` leaves the
minimum of the segment in front and the displaced elements behind; the pass
returns that minimum and the rest of the segment in the order the array
holds it afterwards. -/
def passMin (x : ℤ) : List ℤ → ℤ × List ℤ
  | [] => (x, [])
  | y :: ys =>
    let ab := if y < x then (y, x) else (x, y)
    let p := passMin ab.1 ys
    (p.1, ab.2 :: p.2)

/-- Exchange sort of calculatePercentile over the copied slice, written with
the list length as structural fuel (each outer iteration fixes one
position, and passMin preserves the length of the remainder). -/
def sortExchAux : ℕ → List ℤ → List ℤ
  | 0, _ => []
  | _ + 1, [] => []
  | n + 1, x :: xs =>
    let p := passMin x xs
    p.1 :: sortExchAux n p.2

/-- The sorted copy produced inside calculatePercentile. -/
def sortExch (l : List ℤ) : List ℤ := sortExchAux l.length l

/-- calculatePercentile: 0 on an empty buffer; otherwise the element of a
sorted copy at index int(float64(len) * p / 100.0), clamped to len-1.  The
float computation of the index is exact at the magnitudes involved, so it is
the integer division len * p / 100. -/
def calculatePercentile (latencies : List ℤ) (p : ℕ) : ℤ :=
  if latencies = [] then 0
  else
    let sorted := sortExch latencies
    let index := latencies.length * p / 100
    let index := if latencies.length ≤ index then latencies.length - 1 else index
    sorted.getD index 0

/-- Composite periodic report of the cloud processor (the fields the claims
concern; stdDevSq is the square of the reported standard deviation, see the
module comment). -/
structure StatsReport where
  mean : ℚ
  stdDevSq : ℚ
  min : Option ℚ
  max : Option ℚ
  latencyP95 : ℤ
  latencyP99 : ℤ
deriving DecidableEq

/-- report(): nothing when no reading was received yet; otherwise the mean
is sum / totalReadings and the standard deviation is computed over the
retained readings buffer about that mean (variance summed over s.readings,
divided by len(s.readings) under the square root). -/
def report (s : GlobalStats) : Option StatsReport :=
  if s.totalReadings = 0 then none
  else
    let mean := s.sum / (s.totalReadings : ℚ)
    let variance := ((s.readings.map fun v => (v - mean) ^ 2).sum)
    some { mean := mean
           stdDevSq := variance / (s.readings.length : ℚ)
           min := s.min
           max := s.max
           latencyP95 := calculatePercentile s.latencies 95
           latencyP99 := calculatePercentile s.latencies 99 }

/-- State after ingesting a list of filtered readings (each paired with the
arrival time the handler observes). -/
def run (msgs : List (Telemetry.FilteredReading × ℤ)) (s : GlobalStats) :
    GlobalStats :=
  msgs.foldl (fun acc m => processFilteredReading m.1 m.2 acc) s

end Cloud

/-! Window statistics following the spec's words, for comparison with what
the code computes.  The spec's noise filter consults window.mean() and
window.stddev(): the population mean and standard deviation of the window
values themselves. -/

/-- Arithmetic mean of the window values (the spec's window.mean()). -/
def specWindowMean (w : List ℚ) : ℚ := w.sum / (w.length : ℚ)

/-- Population variance of the window values about their own mean (the
square of the spec's window.stddev()). -/
def specWindowVar (w : List ℚ) : ℚ :=
  ((w.map fun x => (x - specWindowMean w) ^ 2).sum) / (w.length : ℚ)

/-- Rejection condition as the spec words it: stddev > 0 and
|value - mean| > k * stddev over the window's own statistics, in the exact
squared form (valid for k ≥ 0, and the claims use k = 3). -/
def specRejects (k v : ℚ) (w : List ℚ) : Prop :=
  0 < specWindowVar w ∧ k ^ 2 * specWindowVar w < (v - specWindowMean w) ^ 2

/-! Concrete states and messages used by the closed theorems below. -/

/-- Alert class of an edge output, read off the published alert. -/
def alertType (o : Edge.Output) : Option String := o.alert.map Alert.type

/-- Edge state after ten readings of value 0 with window size 10: the window
holds ten zeros and the running totals count ten readings. -/
def coldRunStats : Edge.EdgeStats :=
  Edge.ingestList [0, 0, 0, 0, 0, 0, 0, 0, 0, 0] (Edge.init 10)

/-- Edge state (window size 10) whose next ingestion of the value 79 yields
running mean exactly 50 and stddev exactly 10 at the filter's decision
point. -/
def meanFiftyStats79 : Edge.EdgeStats :=
  Edge.ingestList [45, 45, 45, 45, 45, 45, 51, 52, 48] (Edge.init 10)

/-- Edge state (window size 11) whose next ingestion of the value 81 yields
running mean exactly 50 and stddev exactly 10 at the filter's decision
point. -/
def meanFiftyStats81 : Edge.EdgeStats :=
  Edge.ingestList [46, 46, 46, 46, 46, 46, 46, 47, 47, 53] (Edge.init 11)

/-- Edge state with three readings pending aggregation. -/
def pendingDrainStats : Edge.EdgeStats :=
  Edge.ingestList [5, 25, 30] (Edge.init 10)

/-- Five filtered readings with values 1..5 (timestamps and arrival times
0), as ingested by the cloud processor. -/
def fiveReadings : List (FilteredReading × ℤ) :=
  [1, 2, 3, 4, 5].map fun v =>
    ({ sensorId := "s", value := v, timestamp := 0, edgeId := "e" }, (0 : ℤ))

/-- Two filtered readings with values 10 and 30. -/
def twoReadings : List (FilteredReading × ℤ) :=
  [10, 30].map fun v =>
    ({ sensorId := "s", value := v, timestamp := 0, edgeId := "e" }, (0 : ℤ))

/-- Three filtered readings with values 10, 20, 30. -/
def threeReadings : List (FilteredReading × ℤ) :=
  [10, 20, 30].map fun v =>
    ({ sensorId := "s", value := v, timestamp := 0, edgeId := "e" }, (0 : ℤ))

/-- The JSON object publishAggregate marshals (Go map keys serialize in
sorted order; unmarshalling is order-independent): an AggregateSummary with
edge_id "edge-1", count 5, mean 50, min 10, max 90, timestamp 1700. -/
def aggregateJson : JVal :=
  JVal.obj
    [("count", JVal.num 5), ("edge_id", JVal.str "edge-1"),
     ("max", JVal.num 90), ("mean", JVal.num 50), ("min", JVal.num 10),
     ("timestamp", JVal.num 1700)]

/-- A raw-reading JSON message: sensor s1, value 42, timestamp 5. -/
def readingJson : JVal :=
  JVal.obj
    [("sensor_id", JVal.str "s1"), ("value", JVal.num 42),
     ("timestamp", JVal.num 5)]

/-- One hundred latencies 10, 20, ..., 1000. -/
def latencies100 : List ℤ := (List.range 100).map fun i => 10 * ((i : ℤ) + 1)

end Telemetry

namespace Telemetry

/-! Theorems. -/

/-- C7: under the tiered deviation policy of the HTTP-metrics edge variant,
a reading is classified critical iff its value is below 0 or above 100,
otherwise warning iff it is below 40 or above 60, otherwise no alert is
published; a value of 150 is classified critical (the critical check takes
precedence), and an Alert is published exactly when the classification is
non-none (the published-alert field is none exactly in the in-bounds
case). -/
theorem tiered_alert_classification :
    ∀ (r : SensorReading) (s : Edge.EdgeStats) (e : String),
    (alertType (EdgeApi.processMessage r s e).1 = some "critical" ↔
      (r.value < 0 ∨ 100 < r.value)) ∧
    (alertType (EdgeApi.processMessage r s e).1 = some "warning" ↔
      (¬(r.value < 0 ∨ 100 < r.value) ∧ (r.value < 40 ∨ 60 < r.value))) ∧
    ((EdgeApi.processMessage r s e).1.alert = none ↔
      (40 ≤ r.value ∧ r.value ≤ 60)) ∧
    alertType (EdgeApi.processMessage ⟨r.sensorId, 150, r.timestamp⟩ s e).1 =
      some "critical" := by
  intro r s e
  have hcw : ("critical" : String) ≠ "warning" := by decide
  have hwc : ("warning" : String) ≠ "critical" := by decide
  refine ⟨?_, ?_, ?_, ?_⟩
  · by_cases h1 : r.value < 0 ∨ 100 < r.value
    · simp [EdgeApi.processMessage, alertType, h1]
    · by_cases h2 : r.value < 40 ∨ 60 < r.value <;>
        simp [EdgeApi.processMessage, alertType, h1, h2, hwc]
  · by_cases h1 : r.value < 0 ∨ 100 < r.value
    · simp [EdgeApi.processMessage, alertType, h1, hcw]
    · by_cases h2 : r.value < 40 ∨ 60 < r.value <;>
        simp [EdgeApi.processMessage, alertType, h1, h2]
  · by_cases h1 : r.value < 0 ∨ 100 < r.value
    · simp only [EdgeApi.processMessage, if_pos h1]
      constructor
      · intro h
        exact absurd h (by simp)
      · intro h
        rcases h1 with h1 | h1 <;> [linarith [h.1]; linarith [h.2]]
    · by_cases h2 : r.value < 40 ∨ 60 < r.value
      · simp only [EdgeApi.processMessage, if_neg h1, if_pos h2]
        constructor
        · intro h
          exact absurd h (by simp)
        · intro h
          rcases h2 with h2 | h2 <;> [linarith [h.1]; linarith [h.2]]
      · simp only [EdgeApi.processMessage, if_neg h1, if_neg h2]
        push_neg at h2
        simp [h2.1, h2.2]
  · have h1 : (150 : ℚ) < 0 ∨ (100 : ℚ) < 150 := Or.inr (by norm_num)
    simp [EdgeApi.processMessage, alertType, h1]

/-- C9: the periodic drain emits nothing and leaves the state unchanged when
count = 0; otherwise it emits {count, mean = sum/count, min, max,
emitted_at} and resets the running totals to their zero state and empties
the window, so a second drain with no intervening ingestion emits
nothing. -/
theorem drain_emits_once_and_resets :
    ∀ (s : Edge.EdgeStats) (e : String) (now now' : ℤ),
    (s.count = 0 → Edge.publishAggregate s e now = (none, s)) ∧
    (s.count ≠ 0 → Edge.publishAggregate s e now =
      (some ⟨e, s.count, s.sum / (s.count : ℚ), s.min, s.max, now⟩,
        { s with count := 0, sum := 0, min := none, max := none, windowValues := [] })) ∧
    (Edge.publishAggregate (Edge.publishAggregate s e now).2 e now').1 = none := by
  intro s e now now'
  by_cases h : s.count = 0
  · exact ⟨fun _ => by simp [Edge.publishAggregate, h],
      fun hc => absurd h hc,
      by simp [Edge.publishAggregate, h]⟩
  · exact ⟨fun hc => absurd hc h,
      fun _ => by simp [Edge.publishAggregate, h],
      by simp [Edge.publishAggregate, h]⟩

/-- C9 witness: draining a concrete state with three readings (count 3,
sum 60, min 5, max 30) emits count 3, mean 20, min 5, max 30 and resets the
state; a second drain emits nothing. -/
theorem drain_emits_once_and_resets_witness :
    Edge.publishAggregate pendingDrainStats "e" 7 =
      (some ⟨"e", 3, 20, some 5, some 30, 7⟩,
        { pendingDrainStats with count := 0, sum := 0, min := none, max := none, windowValues := [] }) ∧
    (Edge.publishAggregate (Edge.publishAggregate pendingDrainStats "e" 7).2 "e" 9).1 = none := by
  have h := drain_emits_once_and_resets pendingDrainStats "e" 7 9
  refine ⟨?_, h.2.2⟩
  have h2 := h.2.1 (by decide)
  rw [h2]
  norm_num [pendingDrainStats, Edge.ingestList, Edge.ingest, Edge.init,
    updMin, updMax]

/-- C10: in the HTTP-metrics edge variant, every reading whose JSON parses
is republished on the filtered channel as a FilteredReading (the accept
decision is constantly true; no rejection path exists) while the reading is
still counted into the window statistics. -/
theorem api_variant_always_forwards :
    ∀ (j : JVal) (r : SensorReading) (s : Edge.EdgeStats) (e : String),
    decodeSensorReading j = some r →
    (EdgeApi.handleMessage j s e).1.filtered =
      some ⟨r.sensorId, r.value, r.timestamp, e⟩ ∧
    (EdgeApi.handleMessage j s e).2 = Edge.ingest r.value s := by
  intro j r s e hdec
  simp [EdgeApi.handleMessage, hdec, EdgeApi.processMessage]

/-- C10 witness: the concrete reading message {sensor_id s1, value 42,
timestamp 5} decodes and is republished with edge id e while being
ingested. -/
theorem api_variant_always_forwards_witness :
    (EdgeApi.handleMessage readingJson (Edge.init 10) "e").1.filtered =
      some ⟨"s1", 42, 5, "e"⟩ ∧
    (EdgeApi.handleMessage readingJson (Edge.init 10) "e").2 =
      Edge.ingest 42 (Edge.init 10) :=
  api_variant_always_forwards readingJson ⟨"s1", 42, 5⟩ (Edge.init 10) "e" rfl

/-- C8: under the static threshold policy with bounds tmin ≤ tmax, an
accepted reading yields the below-minimum alert iff its value is below tmin,
the above-maximum alert iff its value is above tmax, and no alert when the
value lies within the bounds. -/
theorem threshold_alert_classification :
    ∀ (k tmin tmax : ℚ) (r : SensorReading) (s : Edge.EdgeStats) (e : String),
    tmin ≤ tmax →
    (Edge.processMessage k tmin tmax r s e).1.filtered ≠ none →
    ((Edge.processMessage k tmin tmax r s e).1.alert =
        some ⟨r.sensorId, r.value, r.timestamp, e, "threshold",
          "Value below minimum threshold"⟩ ↔ r.value < tmin) ∧
    ((Edge.processMessage k tmin tmax r s e).1.alert =
        some ⟨r.sensorId, r.value, r.timestamp, e, "threshold",
          "Value above maximum threshold"⟩ ↔ tmax < r.value) ∧
    ((Edge.processMessage k tmin tmax r s e).1.alert = none ↔
      (tmin ≤ r.value ∧ r.value ≤ tmax)) := by
  intro k tmin tmax r s e hbounds hacc
  have hmsg : ("Value below minimum threshold" : String) ≠
      "Value above maximum threshold" := by decide
  by_cases hrej : Edge.rejectNoise k r.value (Edge.ingest r.value s) = true
  · exact absurd (by simp [Edge.processMessage, hrej]) hacc
  have halert : (Edge.processMessage k tmin tmax r s e).1.alert =
      if r.value < tmin ∨ tmax < r.value then
        some ⟨r.sensorId, r.value, r.timestamp, e, "threshold",
          if r.value < tmin then "Value below minimum threshold"
          else "Value above maximum threshold"⟩
      else none := by
    simp [Edge.processMessage, hrej]
  refine ⟨?_, ?_, ?_⟩ <;> rw [halert]
  · by_cases h1 : r.value < tmin
    · simp [h1, Or.inl h1]
    · by_cases h2 : tmax < r.value
      · simp [h1, h2, Or.inr h2, hmsg.symm]
      · simp [h1, show ¬(r.value < tmin ∨ tmax < r.value) from by tauto]
  · by_cases h1 : r.value < tmin
    · have h2 : ¬ tmax < r.value := by intro h; linarith
      simp [h1, h2, Or.inl h1, hmsg]
    · by_cases h2 : tmax < r.value
      · simp [h1, h2, Or.inr h2]
      · simp [h2, show ¬(r.value < tmin ∨ tmax < r.value) from by tauto]
  · by_cases h1 : r.value < tmin
    · simp only [if_pos (Or.inl h1)]
      simp only [reduceCtorEq, false_iff, not_and]
      intro hle
      linarith
    · by_cases h2 : tmax < r.value
      · simp only [if_pos (Or.inr h2)]
        simp only [reduceCtorEq, false_iff, not_and]
        intro hle
        linarith
      · simp only [if_neg (show ¬(r.value < tmin ∨ tmax < r.value) from by tauto)]
        simp only [true_iff]
        exact ⟨le_of_not_lt h1, le_of_not_lt h2⟩

/-- C8 witness: with bounds 0 and 200 on an empty-window state (the reading
is accepted), value -5 produces the below-minimum alert, value 205 the
above-maximum alert, and value 100 no alert. -/
theorem threshold_alert_classification_witness :
    ((Edge.processMessage 3 0 200 ⟨"s", -5, 0⟩ (Edge.init 10) "e").1.alert =
      some ⟨"s", -5, 0, "e", "threshold", "Value below minimum threshold"⟩) ∧
    ((Edge.processMessage 3 0 200 ⟨"s", 205, 0⟩ (Edge.init 10) "e").1.alert =
      some ⟨"s", 205, 0, "e", "threshold", "Value above maximum threshold"⟩) ∧
    ((Edge.processMessage 3 0 200 ⟨"s", 100, 0⟩ (Edge.init 10) "e").1.alert =
      none) := by
  have hacc : ∀ v : ℚ,
      (Edge.processMessage 3 0 200 ⟨"s", v, 0⟩ (Edge.init 10) "e").1.filtered ≠
        none := by
    intro v
    simp [Edge.processMessage, Edge.rejectNoise, Edge.stdDevSq, Edge.ingest,
      Edge.init]
  refine ⟨?_, ?_, ?_⟩
  · exact ((threshold_alert_classification 3 0 200 ⟨"s", -5, 0⟩ (Edge.init 10)
      "e" (by norm_num) (hacc (-5))).1).mpr (by norm_num)
  · exact ((threshold_alert_classification 3 0 200 ⟨"s", 205, 0⟩ (Edge.init 10)
      "e" (by norm_num) (hacc 205)).2.1).mpr (by norm_num)
  · exact ((threshold_alert_classification 3 0 200 ⟨"s", 100, 0⟩ (Edge.init 10)
      "e" (by norm_num) (hacc 100)).2.2).mpr (by norm_num)

/-- C1 (amended): a reading the noise filter rejects is dropped without
being forwarded (no FilteredReading and no Alert are published), but its
ingestion is retained: the state after the rejection is exactly the
pre-state with the reading ingested (count, sum, min, max and the window
already updated, since the source updates the statistics before the noise
test and does not roll them back). -/
theorem rejected_reading_dropped_but_counted :
    ∀ (k tmin tmax : ℚ) (r : SensorReading) (s : Edge.EdgeStats) (e : String),
    (Edge.processMessage k tmin tmax r s e).1.filtered = none →
    (Edge.processMessage k tmin tmax r s e).1.alert = none ∧
    (Edge.processMessage k tmin tmax r s e).2 = Edge.ingest r.value s := by
  intro k tmin tmax r s e hfil
  by_cases hrej : Edge.rejectNoise k r.value (Edge.ingest r.value s) = true
  · simp [Edge.processMessage, hrej]
  · simp [Edge.processMessage, hrej] at hfil

/-- Evaluation of the ten-zero-readings run: ten readings of 0 leave count
10, sum 0, min = max = 0 and a window of ten zeros. -/
theorem coldRunStats_eval :
    coldRunStats = ⟨10, 0, some 0, some 0, [0, 0, 0, 0, 0, 0, 0, 0, 0, 0], 10⟩ := by
  norm_num [coldRunStats, Edge.ingestList, Edge.ingest, Edge.init, updMin,
    updMax]

/-- Ingesting the value 1 after ten zeros: count 11, sum 1, and the window
holds nine zeros followed by the 1 (the oldest zero was evicted). -/
theorem ingest_coldRunStats_eval :
    Edge.ingest 1 coldRunStats =
      ⟨11, 1, some 0, some 1, [0, 0, 0, 0, 0, 0, 0, 0, 0, 1], 10⟩ := by
  norm_num [coldRunStats, Edge.ingestList, Edge.ingest, Edge.init, updMin,
    updMax]

/-- After ten zeros the value 1 is rejected by the noise test: the running
mean is 1/11, the squared deviation of the window about it is 109/1210 and
(1 - 1/11)^2 = 100/121 exceeds 9 times it (1000/1210 > 981/1210). -/
theorem rejectNoise_coldRun :
    Edge.rejectNoise 3 1 (Edge.ingest 1 coldRunStats) = true := by
  rw [ingest_coldRunStats_eval]
  norm_num [Edge.rejectNoise, Edge.stdDevSq, Edge.runMean]

/-- Full step of the filtering edge on the value 1 after ten zeros: nothing
is published and the state is the ingested one. -/
theorem processMessage_coldRun :
    Edge.processMessage 3 0 200 ⟨"s", 1, 0⟩ coldRunStats "e" =
      (⟨none, none⟩, Edge.ingest 1 coldRunStats) := by
  simp [Edge.processMessage, rejectNoise_coldRun]

/-- C1 counterexample: after ten readings of 0 (window size 10), the value 1
is rejected by the noise filter, yet count has grown from 10 to 11, sum from
0 to 1, and the window contents changed — the state is not what it was
before the reading was ingested. -/
theorem rejection_updates_stats_counterexample :
    (Edge.processMessage 3 0 200 ⟨"s", 1, 0⟩ coldRunStats "e").1.filtered = none ∧
    coldRunStats.count = 10 ∧ coldRunStats.sum = 0 ∧
    (Edge.processMessage 3 0 200 ⟨"s", 1, 0⟩ coldRunStats "e").2.count = 11 ∧
    (Edge.processMessage 3 0 200 ⟨"s", 1, 0⟩ coldRunStats "e").2.sum = 1 ∧
    (Edge.processMessage 3 0 200 ⟨"s", 1, 0⟩ coldRunStats "e").2.windowValues ≠
      coldRunStats.windowValues := by
  rw [processMessage_coldRun, ingest_coldRunStats_eval, coldRunStats_eval]
  refine ⟨rfl, rfl, rfl, rfl, rfl, ?_⟩
  decide

/-- C1 witness: the amended frame property applied at the concrete rejecting
run (ten zeros then the value 1). -/
theorem rejected_reading_dropped_but_counted_witness :
    (Edge.processMessage 3 0 200 ⟨"s", 1, 0⟩ coldRunStats "e").1.alert = none ∧
    (Edge.processMessage 3 0 200 ⟨"s", 1, 0⟩ coldRunStats "e").2 =
      Edge.ingest 1 coldRunStats :=
  rejected_reading_dropped_but_counted 3 0 200 ⟨"s", 1, 0⟩ coldRunStats "e"
    (by rw [processMessage_coldRun])

/-- Helper: with fewer than two samples in the window the computed stdDev is
zero by definition. -/
theorem stdDevSq_eq_zero_of_short (s : Edge.EdgeStats)
    (h : s.windowValues.length < 2) : Edge.stdDevSq s = 0 := by
  unfold Edge.stdDevSq
  rw [if_neg]
  omega

/-- Helper: after ingesting v, the window either contains v (as its last
element) or is empty (window size 0). -/
theorem ingest_mem_or_nil (v : ℚ) (s : Edge.EdgeStats) :
    v ∈ (Edge.ingest v s).windowValues ∨ (Edge.ingest v s).windowValues = [] := by
  simp only [Edge.ingest]
  split_ifs with h
  · cases hw : s.windowValues with
    | nil => right; simp [hw]
    | cons a t => left; simp [hw]
  · left; simp

/-- Helper: ingesting grows the window by at most one element. -/
theorem ingest_window_length_le (v : ℚ) (s : Edge.EdgeStats) :
    (Edge.ingest v s).windowValues.length ≤ s.windowValues.length + 1 := by
  simp only [Edge.ingest]
  split_ifs with h
  · simp
  · simp

/-- Helper: a rejection with k ≥ 0 forces the window at the decision point
to hold more than k^2 samples: the rejected value's own squared deviation is
a summand of the variance numerator, so k^2 * S / n < S with S > 0. -/
theorem reject_window_large (k v : ℚ) (s : Edge.EdgeStats)
    (hv : v ∈ s.windowValues) (h1 : 0 < Edge.stdDevSq s)
    (h2 : k ^ 2 * Edge.stdDevSq s < (v - Edge.runMean s) ^ 2) :
    k ^ 2 < (s.windowValues.length : ℚ) := by
  have hlen : 1 < s.windowValues.length := by
    by_contra hle
    rw [stdDevSq_eq_zero_of_short s (by omega)] at h1
    exact lt_irrefl 0 h1
  have hsd : Edge.stdDevSq s =
      ((s.windowValues.map fun x => (x - Edge.runMean s) ^ 2).sum) /
        (s.windowValues.length : ℚ) := by
    unfold Edge.stdDevSq
    rw [if_pos hlen]
  have hnpos : (0 : ℚ) < (s.windowValues.length : ℚ) := by
    have : 0 < s.windowValues.length := by omega
    exact_mod_cast this
  have hSpos : 0 <
      ((s.windowValues.map fun x => (x - Edge.runMean s) ^ 2).sum) := by
    rw [hsd] at h1
    rcases div_pos_iff.mp h1 with ⟨hS', _⟩ | ⟨_, hneg⟩
    · exact hS'
    · linarith
  have hmem : (v - Edge.runMean s) ^ 2 ≤
      ((s.windowValues.map fun x => (x - Edge.runMean s) ^ 2).sum) := by
    apply List.single_le_sum
    · intro b hb
      obtain ⟨x, _, rfl⟩ := List.mem_map.mp hb
      positivity
    · exact List.mem_map_of_mem _ hv
  rw [hsd] at h2
  have h3 : k ^ 2 *
      ((s.windowValues.map fun x => (x - Edge.runMean s) ^ 2).sum) /
        (s.windowValues.length : ℚ) <
      ((s.windowValues.map fun x => (x - Edge.runMean s) ^ 2).sum) := by
    calc k ^ 2 *
        ((s.windowValues.map fun x => (x - Edge.runMean s) ^ 2).sum) /
          (s.windowValues.length : ℚ) =
        k ^ 2 *
          (((s.windowValues.map fun x => (x - Edge.runMean s) ^ 2).sum) /
            (s.windowValues.length : ℚ)) := by ring
      _ < (v - Edge.runMean s) ^ 2 := h2
      _ ≤ _ := hmem
  have h4 := (div_lt_iff₀ hnpos).mp h3
  exact (mul_lt_mul_right hSpos).mp (by linarith)

/-- C5 (amended): the filtering edge rejects a reading iff, at the decision
point (the reading already ingested), the squared deviation of the window
values about the running mean sum/count is positive and the reading's
squared distance from that running mean exceeds k^2 times it; when the
window at the decision point has fewer than 2 samples the computed stddev is
0 and the reading is accepted; and with k ≥ 3 a pre-state window of fewer
than 2 samples always leads to acceptance (the cold-start policy). -/
theorem noise_filter_rejects_iff_running_stats :
    ∀ (k tmin tmax : ℚ) (r : SensorReading) (s : Edge.EdgeStats) (e : String),
    0 ≤ k →
    ((Edge.processMessage k tmin tmax r s e).1.filtered = none ↔
      (0 < Edge.stdDevSq (Edge.ingest r.value s) ∧
        k ^ 2 * Edge.stdDevSq (Edge.ingest r.value s) <
          (r.value - Edge.runMean (Edge.ingest r.value s)) ^ 2)) ∧
    ((Edge.ingest r.value s).windowValues.length < 2 →
      (Edge.processMessage k tmin tmax r s e).1.filtered ≠ none) ∧
    (3 ≤ k → s.windowValues.length < 2 →
      (Edge.processMessage k tmin tmax r s e).1.filtered ≠ none) := by
  intro k tmin tmax r s e hk
  have hiff : (Edge.processMessage k tmin tmax r s e).1.filtered = none ↔
      Edge.rejectNoise k r.value (Edge.ingest r.value s) = true := by
    by_cases hrej : Edge.rejectNoise k r.value (Edge.ingest r.value s) = true <;>
      simp [Edge.processMessage, hrej]
  have hcond : Edge.rejectNoise k r.value (Edge.ingest r.value s) = true ↔
      (0 < Edge.stdDevSq (Edge.ingest r.value s) ∧
        k ^ 2 * Edge.stdDevSq (Edge.ingest r.value s) <
          (r.value - Edge.runMean (Edge.ingest r.value s)) ^ 2) := by
    simp only [Edge.rejectNoise, Bool.and_eq_true, Bool.or_eq_true,
      decide_eq_true_eq]
    constructor
    · rintro ⟨ha, hb | hb⟩
      · exact absurd hb (not_lt.mpr hk)
      · exact ⟨ha, hb⟩
    · rintro ⟨ha, hb⟩
      exact ⟨ha, Or.inr hb⟩
  have hmain := hiff.trans hcond
  refine ⟨hmain, ?_, ?_⟩
  · intro hlen heq
    have hc := hmain.mp heq
    rw [stdDevSq_eq_zero_of_short _ hlen] at hc
    exact lt_irrefl 0 hc.1
  · intro hk3 hlen heq
    have hc := hmain.mp heq
    rcases ingest_mem_or_nil r.value s with hv | hnil
    · have hbig := reject_window_large k r.value (Edge.ingest r.value s) hv
        hc.1 hc.2
      have hle := ingest_window_length_le r.value s
      have hsmall : ((Edge.ingest r.value s).windowValues.length : ℚ) ≤ 2 := by
        have h2' : (Edge.ingest r.value s).windowValues.length ≤ 2 := by omega
        exact_mod_cast h2'
      nlinarith [hbig, hsmall, hk3]
    · rw [stdDevSq_eq_zero_of_short _ (by simp [hnil])] at hc
      exact lt_irrefl 0 hc.1

/-- C5 counterexample: after ten readings of 0 (window size 10, k = 3) the
value 1 is rejected by the code, yet the spec's window-statistics condition
(stddev of the window about its own mean) does not hold — neither for the
decision-point window (|1 - 1/10| = 9/10 is not strictly greater than
3 * stddev = 9/10) nor for the pre-insertion window (stddev 0). -/
theorem noise_filter_window_stats_counterexample :
    (Edge.processMessage 3 0 200 ⟨"s", 1, 0⟩ coldRunStats "e").1.filtered = none ∧
    ¬ specRejects 3 1 (Edge.ingest 1 coldRunStats).windowValues ∧
    ¬ specRejects 3 1 coldRunStats.windowValues := by
  refine ⟨by rw [processMessage_coldRun], ?_, ?_⟩
  · rw [ingest_coldRunStats_eval]
    norm_num [specRejects, specWindowMean, specWindowVar]
  · rw [coldRunStats_eval]
    norm_num [specRejects, specWindowMean, specWindowVar]

/-- C5 witness: at the concrete decision-point statistics mean 50, stddev 10
(squared 100) with k = 3, the value 79 is accepted ((79-50)^2 = 841 is not
above 900) and the value 81 is rejected ((81-50)^2 = 961 exceeds 900). -/
theorem noise_filter_rejects_iff_running_stats_witness :
    (Edge.processMessage 3 0 200 ⟨"s", 79, 0⟩ meanFiftyStats79 "e").1.filtered ≠
      none ∧
    (Edge.processMessage 3 0 200 ⟨"s", 81, 0⟩ meanFiftyStats81 "e").1.filtered =
      none := by
  constructor
  · intro h
    exact absurd
      (((noise_filter_rejects_iff_running_stats 3 0 200 ⟨"s", 79, 0⟩
        meanFiftyStats79 "e" (by norm_num)).1).mp h)
      (by norm_num [meanFiftyStats79, Edge.ingestList, Edge.ingest, Edge.init,
        Edge.stdDevSq, Edge.runMean, updMin, updMax])
  · exact ((noise_filter_rejects_iff_running_stats 3 0 200 ⟨"s", 81, 0⟩
      meanFiftyStats81 "e" (by norm_num)).1).mpr
      (by norm_num [meanFiftyStats81, Edge.ingestList, Edge.ingest, Edge.init,
        Edge.stdDevSq, Edge.runMean, updMin, updMax])

/-- Helper: the edge window update preserves the length bound
length ≤ windowSize (the eviction guard there tests the length, not the
capacity). -/
theorem edge_window_bounded (v : ℚ) (s : Edge.EdgeStats)
    (h : s.windowValues.length ≤ s.windowSize) :
    (Edge.ingest v s).windowValues.length ≤ s.windowSize := by
  simp only [Edge.ingest]
  split_ifs with hlt
  · simp only [List.length_tail, List.length_append, List.length_singleton]
    omega
  · simp only [List.length_append, List.length_singleton] at hlt ⊢
    omega

/-- Helper: appending to a nonempty list commutes with dropping the
head. -/
theorem tail_append_singleton {α : Type} (l : List α) (v : α) (h : l ≠ []) :
    (l ++ [v]).tail = l.tail ++ [v] := by
  cases l with
  | nil => exact absurd rfl h
  | cons a t => rfl

/-- Helper: one edge ingestion step keeps the window equal to the ingested
history with all but the last windowSize values dropped. -/
theorem ingest_window_drop (v : ℚ) (ws : List ℚ) (s : Edge.EdgeStats)
    (h : s.windowValues = ws.drop (ws.length - s.windowSize)) :
    (Edge.ingest v s).windowValues =
      (ws ++ [v]).drop ((ws ++ [v]).length - s.windowSize) := by
  simp only [Edge.ingest]
  by_cases hle : s.windowSize ≤ ws.length
  · by_cases hN : s.windowSize = 0
    · have hwin : s.windowValues = [] := by
        rw [h, hN]
        exact List.drop_eq_nil_of_le (by omega)
      rw [hwin]
      rw [if_pos (by simp [hN])]
      have : (ws ++ [v]).length - s.windowSize = ws.length + 1 := by
        simp [hN]
      rw [this]
      simp [List.drop_eq_nil_of_le]
    · have hlen : s.windowValues.length = s.windowSize := by
        rw [h, List.length_drop]
        omega
      rw [if_pos (by simp [hlen])]
      have hne : s.windowValues ≠ [] := by
        intro hnil
        rw [hnil] at hlen
        exact hN hlen.symm
      rw [tail_append_singleton _ _ hne, h, List.tail_drop]
      have harith : (ws ++ [v]).length - s.windowSize =
          ws.length - s.windowSize + 1 := by
        simp only [List.length_append, List.length_singleton]
        omega
      rw [harith, List.drop_append_of_le_length (by omega)]
  · have h0 : ws.length - s.windowSize = 0 := by omega
    rw [h0, List.drop_zero] at h
    rw [if_neg (by
      simp only [h, List.length_append, List.length_singleton]
      omega)]
    have h1 : (ws ++ [v]).length - s.windowSize = 0 := by
      simp only [List.length_append, List.length_singleton]
      omega
    rw [h, h1, List.drop_zero]

/-- Helper: an edge ingestion run keeps the window equal to the full
ingested history with all but the last windowSize values dropped. -/
theorem ingestList_window_exact :
    ∀ (vs ws : List ℚ) (s : Edge.EdgeStats),
    s.windowValues = ws.drop (ws.length - s.windowSize) →
    (Edge.ingestList vs s).windowValues =
      (ws ++ vs).drop ((ws ++ vs).length - s.windowSize) := by
  intro vs
  induction vs with
  | nil =>
    intro ws s h
    simpa [Edge.ingestList] using h
  | cons v rest ih =>
    intro ws s h
    have hstep : Edge.ingestList (v :: rest) s =
        Edge.ingestList rest (Edge.ingest v s) := by
      simp [Edge.ingestList]
    have hsize : (Edge.ingest v s).windowSize = s.windowSize := rfl
    have hnext : (Edge.ingest v s).windowValues =
        (ws ++ [v]).drop ((ws ++ [v]).length - (Edge.ingest v s).windowSize) := by
      rw [hsize]
      exact ingest_window_drop v ws s h
    have := ih (ws ++ [v]) (Edge.ingest v s) hnext
    rw [hstep, this, hsize, List.append_assoc]
    simp

/-- Helper: the edge window after any run from the initial state holds
exactly the last min(n, N) ingested values in insertion order — the history
with all but the last N values dropped. -/
theorem edge_window_exact (vs : List ℚ) (N : ℕ) :
    (Edge.ingestList vs (Edge.init N)).windowValues =
      vs.drop (vs.length - N) := by
  have h := ingestList_window_exact vs [] (Edge.init N) (by simp [Edge.init])
  simpa [Edge.init] using h

/-- C2: evaluating the cloud reading buffer at the failing input.  With
max-readings 3, ingesting the five values 1..5 leaves the buffer holding
four values: the eviction guard tests the slice capacity, which append grew
to 4 after the first eviction, so the buffer exceeds its configured bound
and retains the last four values instead of the last three. -/
theorem cloud_window_exceeds_capacity_eval :
    (Cloud.run fiveReadings (Cloud.init 3)).readings = [2, 3, 4, 5] ∧
    ¬ ((Cloud.run fiveReadings (Cloud.init 3)).readings.length ≤ 3) := by
  norm_num [fiveReadings, Cloud.run, Cloud.processFilteredReading,
    Cloud.pushReading, Cloud.goGrowCap, Cloud.init, updMin, updMax]

/-- C3: evaluating the cloud filtered-channel handler at an
AggregateSummary message.  The aggregate unmarshals successfully as a
FilteredReading (unknown fields ignored, missing fields zero), so it is
processed as a reading of value 0: totalReadings becomes 1, the value 0
enters the readings window, and the edge total grows by 1 instead of by the
aggregate's count 5. -/
theorem aggregate_misrouted_as_reading_eval :
    decodeFilteredReading aggregateJson =
      some ⟨"", 0, 1700, "edge-1"⟩ ∧
    (Cloud.handleFiltered (some aggregateJson) 1700 (Cloud.init 10000)).totalReadings = 1 ∧
    (Cloud.handleFiltered (some aggregateJson) 1700 (Cloud.init 10000)).readings = [0] ∧
    (Cloud.handleFiltered (some aggregateJson) 1700 (Cloud.init 10000)).sum = 0 ∧
    (Cloud.handleFiltered (some aggregateJson) 1700 (Cloud.init 10000)).edgeNodes "edge-1" = 1 := by
  refine ⟨rfl, rfl, rfl, ?_, by decide⟩
  have h : (Cloud.handleFiltered (some aggregateJson) 1700
      (Cloud.init 10000)).sum = (0 : ℚ) + 0 := rfl
  rw [h]
  norm_num

/-- Helper: the cloud reading-buffer update appends the new value after
dropping at most a prefix, so its result is a suffix of the old buffer with
the value appended. -/
theorem pushReading_fst_suffix (rs : List ℚ) (cap : ℕ) (v : ℚ) :
    (Cloud.pushReading rs cap v).1 <:+ rs ++ [v] := by
  simp only [Cloud.pushReading]
  split_ifs with h1 h2 h3
  · obtain ⟨t, ht⟩ : rs.tail <:+ rs := List.tail_suffix rs
    exact ⟨t, by rw [← List.append_assoc, ht]⟩
  · obtain ⟨t, ht⟩ : rs.tail <:+ rs := List.tail_suffix rs
    exact ⟨t, by rw [← List.append_assoc, ht]⟩
  · exact List.suffix_refl _
  · exact List.suffix_refl _

/-- Helper: the cloud reading-buffer update never produces an empty
buffer. -/
theorem pushReading_fst_ne_nil (rs : List ℚ) (cap : ℕ) (v : ℚ) :
    (Cloud.pushReading rs cap v).1 ≠ [] := by
  simp only [Cloud.pushReading]
  split_ifs <;> simp

/-- Helper: running totals and reading buffer after a cloud ingestion run:
totalReadings counts every message, sum accumulates every value, and the
retained buffer is a suffix of the ingested values (readings are only ever
dropped from the front), nonempty as soon as one message arrived. -/
theorem run_invariants :
    ∀ (msgs : List (FilteredReading × ℤ)) (s : Cloud.GlobalStats),
    (Cloud.run msgs s).totalReadings = s.totalReadings + msgs.length ∧
    (Cloud.run msgs s).sum = s.sum + (msgs.map fun m => m.1.value).sum ∧
    ((Cloud.run msgs s).readings <:+ s.readings ++ (msgs.map fun m => m.1.value)) ∧
    (msgs ≠ [] → (Cloud.run msgs s).readings ≠ []) := by
  intro msgs
  induction msgs with
  | nil =>
    intro s
    refine ⟨by simp [Cloud.run], by simp [Cloud.run], by simp [Cloud.run], ?_⟩
    intro h
    exact absurd rfl h
  | cons m rest ih =>
    intro s
    have hstep : Cloud.run (m :: rest) s =
        Cloud.run rest (Cloud.processFilteredReading m.1 m.2 s) := by
      simp [Cloud.run]
    obtain ⟨ihtot, ihsum, ihsuf, ihne⟩ :=
      ih (Cloud.processFilteredReading m.1 m.2 s)
    have htot : (Cloud.processFilteredReading m.1 m.2 s).totalReadings =
        s.totalReadings + 1 := rfl
    have hsum : (Cloud.processFilteredReading m.1 m.2 s).sum =
        s.sum + m.1.value := rfl
    have hread : (Cloud.processFilteredReading m.1 m.2 s).readings =
        (Cloud.pushReading s.readings s.readingsCap m.1.value).1 := rfl
    refine ⟨?_, ?_, ?_, ?_⟩
    · rw [hstep, ihtot, htot, List.length_cons]
      omega
    · rw [hstep, ihsum, hsum, List.map_cons, List.sum_cons]
      ring
    · rw [hstep]
      refine ihsuf.trans ?_
      rw [hread]
      obtain ⟨t, ht⟩ := pushReading_fst_suffix s.readings s.readingsCap m.1.value
      refine ⟨t, ?_⟩
      rw [List.map_cons, ← List.append_assoc, ht, List.append_assoc]
      simp
    · intro _
      rw [hstep]
      cases hr : rest with
      | nil =>
        simp only [Cloud.run, List.foldl_nil]
        rw [hread]
        exact pushReading_fst_ne_nil _ _ _
      | cons a as =>
        exact hr ▸ ihne (by simp [hr])

/-- C4 (amended): for every nonempty ingestion run of the cloud aggregator,
the reported mean is the cumulative mean of all ingested values
(sum / totalReadings, never reset), and the reported squared standard
deviation is the average squared deviation of the currently retained
readings buffer about that cumulative mean — not about the buffer's own
mean; the retained buffer is a nonempty suffix of the ingested values. -/
theorem report_uses_cumulative_mean :
    ∀ (msgs : List (FilteredReading × ℤ)) (N : ℕ), msgs ≠ [] →
    ∃ rep, Cloud.report (Cloud.run msgs (Cloud.init N)) = some rep ∧
      rep.mean = (msgs.map fun m => m.1.value).sum / (msgs.length : ℚ) ∧
      rep.stdDevSq = (((Cloud.run msgs (Cloud.init N)).readings.map
          fun v => (v - rep.mean) ^ 2).sum) /
        (((Cloud.run msgs (Cloud.init N)).readings.length : ℚ)) ∧
      ((Cloud.run msgs (Cloud.init N)).readings <:+
        (msgs.map fun m => m.1.value)) ∧
      (Cloud.run msgs (Cloud.init N)).readings ≠ [] := by
  intro msgs N hne
  obtain ⟨htot, hsum, hsuf, hnil⟩ := run_invariants msgs (Cloud.init N)
  have htot' : (Cloud.run msgs (Cloud.init N)).totalReadings = msgs.length := by
    simpa [Cloud.init] using htot
  have hsum' : (Cloud.run msgs (Cloud.init N)).sum =
      (msgs.map fun m => m.1.value).sum := by
    simpa [Cloud.init] using hsum
  have hsuf' : (Cloud.run msgs (Cloud.init N)).readings <:+
      (msgs.map fun m => m.1.value) := by
    simpa [Cloud.init] using hsuf
  have hne' : (Cloud.run msgs (Cloud.init N)).totalReadings ≠ 0 := by
    rw [htot']
    have := List.length_pos.mpr hne
    omega
  refine ⟨⟨(Cloud.run msgs (Cloud.init N)).sum /
      ((Cloud.run msgs (Cloud.init N)).totalReadings : ℚ),
    (((Cloud.run msgs (Cloud.init N)).readings.map fun v =>
        (v - (Cloud.run msgs (Cloud.init N)).sum /
          ((Cloud.run msgs (Cloud.init N)).totalReadings : ℚ)) ^ 2).sum) /
      (((Cloud.run msgs (Cloud.init N)).readings.length : ℚ)),
    (Cloud.run msgs (Cloud.init N)).min, (Cloud.run msgs (Cloud.init N)).max,
    Cloud.calculatePercentile (Cloud.run msgs (Cloud.init N)).latencies 95,
    Cloud.calculatePercentile (Cloud.run msgs (Cloud.init N)).latencies 99⟩,
    ?_, ?_, ?_, hsuf', hnil hne⟩
  · simp only [Cloud.report, if_neg hne']
  · simp only [hsum', htot']
  · simp only [hsum', htot']

/-- C4 counterexample: cloud with max-readings 1 after ingesting the values
10 and 30.  The retained readings window is [30], whose arithmetic mean is
30 and population variance 0, but the report states mean 20 (the cumulative
mean 40/2) and squared standard deviation 100 (the deviation of the
retained value 30 from the cumulative mean 20). -/
theorem report_not_window_stats_counterexample :
    (Cloud.report (Cloud.run twoReadings (Cloud.init 1))).map
      Cloud.StatsReport.mean = some 20 ∧
    (Cloud.report (Cloud.run twoReadings (Cloud.init 1))).map
      Cloud.StatsReport.stdDevSq = some 100 ∧
    (Cloud.run twoReadings (Cloud.init 1)).readings = [30] ∧
    specWindowMean ((Cloud.run twoReadings (Cloud.init 1)).readings) = 30 ∧
    specWindowVar ((Cloud.run twoReadings (Cloud.init 1)).readings) = 0 ∧
    ((20 : ℚ) ≠ 30) ∧ ((100 : ℚ) ≠ 0) := by
  have hne' : (Cloud.run twoReadings (Cloud.init 1)).totalReadings ≠ 0 := by
    decide
  have hread : (Cloud.run twoReadings (Cloud.init 1)).readings = [30] := rfl
  have hsum : (Cloud.run twoReadings (Cloud.init 1)).sum = (0 : ℚ) + 10 + 30 :=
    rfl
  have htot : (Cloud.run twoReadings (Cloud.init 1)).totalReadings = 2 := rfl
  refine ⟨?_, ?_, hread, ?_, ?_, by norm_num, by norm_num⟩
  · simp only [Cloud.report, if_neg hne', Option.map_some']
    rw [hsum, htot]
    norm_num
  · simp only [Cloud.report, if_neg hne', Option.map_some']
    rw [hread, hsum, htot]
    norm_num
  · rw [hread]
    norm_num [specWindowMean]
  · rw [hread]
    norm_num [specWindowVar, specWindowMean]

/-- C4 witness: the amended report characterization applied to the run that
ingests the values 10, 20, 30 with max-readings 100 (mean 20). -/
theorem report_uses_cumulative_mean_witness :
    ∃ rep, Cloud.report (Cloud.run threeReadings (Cloud.init 100)) = some rep ∧
      rep.mean = (threeReadings.map fun m => m.1.value).sum /
        (threeReadings.length : ℚ) ∧
      rep.stdDevSq = (((Cloud.run threeReadings (Cloud.init 100)).readings.map
          fun v => (v - rep.mean) ^ 2).sum) /
        (((Cloud.run threeReadings (Cloud.init 100)).readings.length : ℚ)) ∧
      ((Cloud.run threeReadings (Cloud.init 100)).readings <:+
        (threeReadings.map fun m => m.1.value)) ∧
      (Cloud.run threeReadings (Cloud.init 100)).readings ≠ [] :=
  report_uses_cumulative_mean threeReadings 100 (by decide)

/-- Helper: one pass of the exchange sort preserves the number of remaining
elements. -/
theorem passMin_length (x : ℤ) (l : List ℤ) :
    (Cloud.passMin x l).2.length = l.length := by
  induction l generalizing x with
  | nil => rfl
  | cons y ys ih =>
    simp only [Cloud.passMin]
    by_cases h : y < x <;> simp [h, ih]

/-- Helper: one pass of the exchange sort permutes the carried element and
the segment. -/
theorem passMin_perm (x : ℤ) (l : List ℤ) :
    ((Cloud.passMin x l).1 :: (Cloud.passMin x l).2).Perm (x :: l) := by
  induction l generalizing x with
  | nil => simp [Cloud.passMin]
  | cons y ys ih =>
    simp only [Cloud.passMin]
    by_cases h : y < x
    · simp only [if_pos h]
      exact (List.Perm.swap x _ _).trans ((ih y).cons x)
    · simp only [if_neg h]
      exact ((List.Perm.swap y _ _).trans ((ih x).cons y)).trans
        (List.Perm.swap x y ys)

/-- Helper: one pass of the exchange sort carries the minimum forward: its
result is below the carried start and every element left behind. -/
theorem passMin_fst_le (x : ℤ) (l : List ℤ) :
    (Cloud.passMin x l).1 ≤ x ∧
      ∀ z ∈ (Cloud.passMin x l).2, (Cloud.passMin x l).1 ≤ z := by
  induction l generalizing x with
  | nil =>
    constructor
    · simp [Cloud.passMin]
    · intro z hz
      simp [Cloud.passMin] at hz
  | cons y ys ih =>
    simp only [Cloud.passMin]
    by_cases h : y < x
    · simp only [if_pos h]
      obtain ⟨h1, h2⟩ := ih y
      refine ⟨le_trans h1 (le_of_lt h), ?_⟩
      intro z hz
      rcases List.mem_cons.mp hz with rfl | hz
      · exact le_trans h1 (le_of_lt h)
      · exact h2 z hz
    · simp only [if_neg h]
      obtain ⟨h1, h2⟩ := ih x
      refine ⟨h1, ?_⟩
      intro z hz
      rcases List.mem_cons.mp hz with rfl | hz
      · exact le_trans h1 (le_of_not_lt h)
      · exact h2 z hz

/-- Helper: the exchange sort is a permutation (stated on the fuelled
recursion, with enough fuel). -/
theorem sortExchAux_perm :
    ∀ (n : ℕ) (l : List ℤ), l.length ≤ n → (Cloud.sortExchAux n l).Perm l := by
  intro n
  induction n with
  | zero =>
    intro l hl
    have : l = [] := List.length_eq_zero.mp (Nat.le_zero.mp hl)
    simp [this, Cloud.sortExchAux]
  | succ n ih =>
    intro l hl
    cases l with
    | nil => simp [Cloud.sortExchAux]
    | cons x xs =>
      simp only [Cloud.sortExchAux]
      have hlen : (Cloud.passMin x xs).2.length ≤ n := by
        rw [passMin_length]
        simp only [List.length_cons] at hl
        omega
      exact Trans.trans ((ih _ hlen).cons (Cloud.passMin x xs).1)
        (passMin_perm x xs)

/-- Helper: the exchange sort sorts (stated on the fuelled recursion, with
enough fuel). -/
theorem sortExchAux_sorted :
    ∀ (n : ℕ) (l : List ℤ), l.length ≤ n →
      List.Sorted (· ≤ ·) (Cloud.sortExchAux n l) := by
  intro n
  induction n with
  | zero =>
    intro l _
    simp [Cloud.sortExchAux]
  | succ n ih =>
    intro l hl
    cases l with
    | nil => simp [Cloud.sortExchAux]
    | cons x xs =>
      simp only [Cloud.sortExchAux]
      have hlen : (Cloud.passMin x xs).2.length ≤ n := by
        rw [passMin_length]
        simp only [List.length_cons] at hl
        omega
      rw [List.sorted_cons]
      constructor
      · intro b hb
        have hb' : b ∈ (Cloud.passMin x xs).2 :=
          (sortExchAux_perm n _ hlen).mem_iff.mp hb
        exact (passMin_fst_le x xs).2 b hb'
      · exact ih _ hlen

/-- Helper: the sorted copy taken inside calculatePercentile is a sorted
permutation of the input buffer. -/
theorem sortExch_perm_sorted (l : List ℤ) :
    (Cloud.sortExch l).Perm l ∧ List.Sorted (· ≤ ·) (Cloud.sortExch l) :=
  ⟨sortExchAux_perm l.length l le_rfl, sortExchAux_sorted l.length l le_rfl⟩

/-- C6: calculatePercentile returns 0 on an empty buffer; on a nonempty
buffer of n latencies it returns the element at index n*p/100 (integer
division, i.e. the floor), clamped to n-1, of the latencies arranged in
ascending order (any sorted permutation of the buffer; the input itself is
not consumed — the function is pure and sorts a copy). -/
theorem percentile_from_sorted_copy :
    (∀ p : ℕ, Cloud.calculatePercentile [] p = 0) ∧
    (∀ (l l' : List ℤ) (p : ℕ), l ≠ [] → l.Perm l' →
      List.Sorted (· ≤ ·) l' →
      Cloud.calculatePercentile l p =
        l'.getD (min (l.length * p / 100) (l.length - 1)) 0) := by
  constructor
  · intro p
    simp [Cloud.calculatePercentile]
  · intro l l' p hne hperm hsort
    obtain ⟨hp, hs⟩ := sortExch_perm_sorted l
    have hsorted : Cloud.sortExch l = l' :=
      List.eq_of_perm_of_sorted (hp.trans hperm) hs hsort
    simp only [Cloud.calculatePercentile, if_neg hne]
    rw [hsorted]
    have hl : 0 < l.length := List.length_pos.mpr hne
    by_cases h : l.length ≤ l.length * p / 100
    · rw [if_pos h]
      congr 1
      omega
    · rw [if_neg h]
      congr 1
      omega

/-- C6 witness: on the hundred latencies 10, 20, ..., 1000 at p = 95 the
percentile is the element at sorted index 95 (the 96th smallest value),
960. -/
theorem percentile_from_sorted_copy_witness :
    Cloud.calculatePercentile latencies100 95 = 960 := by
  have h := percentile_from_sorted_copy.2 latencies100 latencies100 95
    (by decide) (List.Perm.refl _) (by decide)
  rw [h]
  decide

end Telemetry
